import Mathlib

/-!
Verification of the Applied-mathematics simulation scripts.

Shallow embedding of the numerically relevant parts of
`Battery_discharge_model.py` (battery discharge loop and RC-circuit
analytical solutions), `seir_model.py`, `sirs_model.py` and
`stock_market_fluctuation.py`.  Exact arithmetic: rationals where the
source only uses field operations and `max`, reals where the source
uses `exp`/`sqrt`.
-/

namespace Battery

/-- Parameters of the battery discharge script
(`Battery_discharge_model.py`, lines 63-75). -/
structure Params where
  Q : ℚ
  R_int : ℚ
  I_discharge : ℚ
  a : ℚ
  b : ℚ
  dt : ℚ

/-- The concrete parameter values of the script:
Q = 2.0 Ah, R_int = 0.05 Ω, I_discharge = 1.0 A, a = 1.2, b = 2.5, dt = 1 s. -/
def batteryP : Params := ⟨2, 1/20, 1, 6/5, 5/2, 1⟩

/-- The script's n_steps: t_end = 3600, dt = 1, n_steps = int(3600/1). -/
def n_steps : ℕ := 3600

/-- One SOC update of the simulation loop (lines 95-96):
`soc[k] = soc[k-1] - (I_discharge * dt) / (Q * 3600)` followed by
`soc[k] = max(soc[k], 0)`. -/
def socStep (p : Params) (s : ℚ) : ℚ :=
  max (s - p.I_discharge * p.dt / (p.Q * 3600)) 0

/-- The SOC series: `soc[0] = SOC0` (line 85), then the loop update. -/
def soc (p : Params) (soc0 : ℚ) : ℕ → ℚ
  | 0 => soc0
  | k + 1 => socStep p (soc p soc0 k)

/-- Open-circuit voltage series: `voc[k] = a * soc[k] + b` (lines 86, 99). -/
def voc (p : Params) (soc0 : ℚ) (k : ℕ) : ℚ :=
  p.a * soc p soc0 k + p.b

/-- Terminal voltage series: `vbat[k] = voc[k] - I_discharge * R_int`
(lines 87, 102). -/
def vbat (p : Params) (soc0 : ℚ) (k : ℕ) : ℚ :=
  voc p soc0 k - p.I_discharge * p.R_int

/-- Under the script's parameters the SOC decreases by exactly 1/7200 per
step while it has not yet hit the floor: closed form for k ≤ 7200. -/
lemma batteryP_soc_closed (k : ℕ) (hk : k ≤ 7200) :
    soc batteryP 1 k = 1 - (k : ℚ) / 7200 := by
  induction k with
  | zero => simp [soc]
  | succ n ih =>
      have hn : n ≤ 7200 := Nat.le_of_succ_le hk
      have hx : (0 : ℚ) ≤ 1 - ((n : ℚ) + 1) / 7200 := by
        have : ((n : ℚ) + 1) ≤ 7200 := by
          have : ((n : ℚ) + 1) = ((n + 1 : ℕ) : ℚ) := by push_cast; ring
          rw [this]
          exact_mod_cast hk
        nlinarith
      have hstep : soc batteryP 1 (n + 1) =
          max (soc batteryP 1 n - 1 / 7200) 0 := by
        show max (soc batteryP 1 n - (1 : ℚ) * 1 / (2 * 3600)) 0 = _
        norm_num
      rw [hstep, ih hn]
      rw [max_eq_left (by linarith [hx] : (0:ℚ) ≤ 1 - (n : ℚ) / 7200 - 1 / 7200)]
      push_cast
      ring

/-- Nonnegativity of the per-step SOC decrement under physical parameters. -/
lemma decrement_nonneg (p : Params) (hQ : 0 < p.Q) (hI : 0 ≤ p.I_discharge)
    (hdt : 0 ≤ p.dt) : 0 ≤ p.I_discharge * p.dt / (p.Q * 3600) :=
  div_nonneg (mul_nonneg hI hdt) (by positivity)

/-- SOC stays in [0, 1] at every index, given a nonnegative decrement. -/
lemma soc_mem_unit (p : Params) (soc0 : ℚ)
    (hd : 0 ≤ p.I_discharge * p.dt / (p.Q * 3600))
    (h0 : 0 ≤ soc0) (h1 : soc0 ≤ 1) (k : ℕ) :
    0 ≤ soc p soc0 k ∧ soc p soc0 k ≤ 1 := by
  induction k with
  | zero => exact ⟨h0, h1⟩
  | succ n ih =>
      refine ⟨le_max_right _ _, ?_⟩
      have : soc p soc0 n - p.I_discharge * p.dt / (p.Q * 3600) ≤ 1 := by
        linarith [ih.2]
      exact max_le this (by norm_num)

end Battery

open Battery

/-- C1 (counterexample): with the script's parameters the final array entry
(index n_steps - 1 = 3599) does not have SOC = 0, and even a 3600th update
leaves SOC = 1/2: the claimed final state SOC = 0.0 is false. -/
theorem battery_endtoend_counterexample :
    soc batteryP 1 (n_steps - 1) ≠ 0 ∧ soc batteryP 1 n_steps ≠ 0 := by
  constructor
  · show soc batteryP 1 3599 ≠ 0
    rw [batteryP_soc_closed 3599 (by norm_num)]
    norm_num
  · show soc batteryP 1 3600 ≠ 0
    rw [batteryP_soc_closed 3600 (by norm_num)]
    norm_num

/-- C1 (amended): with Q = 2.0 Ah and I = 1.0 A, one hour only half-drains
the battery: the final array entry (index 3599) has SOC = 3601/7200 ≈ 0.5001,
V_OC = 18601/6000 ≈ 3.1002, V_bat = 18301/6000 ≈ 3.0502; the SOC floor at 0
is reached only after 7200 steps. -/
theorem battery_endtoend_amended :
    soc batteryP 1 (n_steps - 1) = 3601 / 7200 ∧
    voc batteryP 1 (n_steps - 1) = 18601 / 6000 ∧
    vbat batteryP 1 (n_steps - 1) = 18301 / 6000 ∧
    soc batteryP 1 7200 = 0 := by
  have h : soc batteryP 1 (n_steps - 1) = 3601 / 7200 := by
    show soc batteryP 1 3599 = 3601 / 7200
    rw [batteryP_soc_closed 3599 (by norm_num)]
    norm_num
  refine ⟨h, ?_, ?_, ?_⟩
  · show batteryP.a * soc batteryP 1 (n_steps - 1) + batteryP.b = 18601 / 6000
    rw [h]; norm_num [batteryP]
  · show batteryP.a * soc batteryP 1 (n_steps - 1) + batteryP.b -
        batteryP.I_discharge * batteryP.R_int = 18301 / 6000
    rw [h]; norm_num [batteryP]
  · rw [batteryP_soc_closed 7200 le_rfl]
    norm_num

/-- C2: for every parameter set with Q > 0, I ≥ 0, dt ≥ 0 and every initial
SOC in [0, 1], the SOC series is non-increasing step to step and every SOC
value lies in [0, 1]; the max(·, 0) floor keeps SOC nonnegative. -/
theorem battery_soc_invariant (p : Params) (soc0 : ℚ)
    (hQ : 0 < p.Q) (hI : 0 ≤ p.I_discharge) (hdt : 0 ≤ p.dt)
    (h0 : 0 ≤ soc0) (h1 : soc0 ≤ 1) (k : ℕ) :
    soc p soc0 (k + 1) ≤ soc p soc0 k ∧
    0 ≤ soc p soc0 k ∧ soc p soc0 k ≤ 1 := by
  have hd := decrement_nonneg p hQ hI hdt
  have hmem := soc_mem_unit p soc0 hd h0 h1 k
  refine ⟨?_, hmem⟩
  show max (soc p soc0 k - p.I_discharge * p.dt / (p.Q * 3600)) 0 ≤ _
  exact max_le (by linarith [hmem.1]) hmem.1

/-- C2 witness: the invariant instantiated at the script's parameters,
initial SOC 1, index 5. -/
theorem battery_soc_invariant_witness :
    Battery.soc Battery.batteryP 1 6 ≤ Battery.soc Battery.batteryP 1 5 ∧
    0 ≤ Battery.soc Battery.batteryP 1 5 ∧ Battery.soc Battery.batteryP 1 5 ≤ 1 :=
  battery_soc_invariant Battery.batteryP 1 (by norm_num [Battery.batteryP])
    (by norm_num [Battery.batteryP]) (by norm_num [Battery.batteryP])
    (by norm_num) (by norm_num) 5

/-- C4: each battery step computes exactly
SOC(k+1) = max(0, SOC(k) − I·Δt/(Q·3600)), and at every index k including 0
the derived series satisfy V_OC(k) = a·SOC(k) + b and
V_bat(k) = V_OC(k) − I·R_int. -/
theorem battery_step_equations (p : Params) (soc0 : ℚ) (k : ℕ) :
    soc p soc0 (k + 1) =
      max 0 (soc p soc0 k - p.I_discharge * p.dt / (p.Q * 3600)) ∧
    voc p soc0 k = p.a * soc p soc0 k + p.b ∧
    vbat p soc0 k = voc p soc0 k - p.I_discharge * p.R_int :=
  ⟨max_comm _ 0, rfl, rfl⟩

/-- C9: zero is absorbing for the SOC recurrence: if the per-step decrement
is nonnegative and SOC(k) = 0 then SOC(j) = 0 for every j ≥ k, and from
there V_OC stays at b and V_bat at b − I·R_int. -/
theorem battery_soc_zero_absorbing (p : Params) (soc0 : ℚ)
    (hd : 0 ≤ p.I_discharge * p.dt / (p.Q * 3600))
    (k j : ℕ) (hkj : k ≤ j) (hz : soc p soc0 k = 0) :
    soc p soc0 j = 0 ∧ voc p soc0 j = p.b ∧
    vbat p soc0 j = p.b - p.I_discharge * p.R_int := by
  have hsoc : soc p soc0 j = 0 := by
    induction j, hkj using Nat.le_induction with
    | base => exact hz
    | succ n hn ih =>
        show max (soc p soc0 n - p.I_discharge * p.dt / (p.Q * 3600)) 0 = 0
        rw [ih]
        exact max_eq_right (by linarith)
  refine ⟨hsoc, ?_, ?_⟩
  · show p.a * soc p soc0 j + p.b = p.b
    rw [hsoc]; ring
  · show p.a * soc p soc0 j + p.b - p.I_discharge * p.R_int = _
    rw [hsoc]; ring

/-- C9 witness: instantiated at the script's parameters with initial SOC 0,
k = 0, j = 2. -/
theorem battery_soc_zero_absorbing_witness :
    Battery.soc Battery.batteryP 0 2 = 0 ∧
    Battery.voc Battery.batteryP 0 2 = Battery.batteryP.b ∧
    Battery.vbat Battery.batteryP 0 2 =
      Battery.batteryP.b - Battery.batteryP.I_discharge * Battery.batteryP.R_int :=
  battery_soc_zero_absorbing Battery.batteryP 0 (by norm_num [Battery.batteryP])
    0 2 (by norm_num) rfl

namespace SEIR

/-- The SEIR model differential equations (`seir_model.py`, lines 54-60):
`deriv(y, t, N, beta, sigma, gamma)` returns
(dS/dt, dE/dt, dI/dt, dR/dt) = (-βSI/N, βSI/N - σE, σE - γI, γI). -/
def deriv (y : ℚ × ℚ × ℚ × ℚ) (t : ℚ) (N beta sigma gamma : ℚ) :
    ℚ × ℚ × ℚ × ℚ :=
  let S := y.1
  let E := y.2.1
  let I := y.2.2.1
  (-beta * S * I / N, beta * S * I / N - sigma * E,
   sigma * E - gamma * I, gamma * I)

/-- Sum of the four state components (the total population S+E+I+R). -/
def total (y : ℚ × ℚ × ℚ × ℚ) : ℚ :=
  y.1 + y.2.1 + y.2.2.1 + y.2.2.2

/-- Modelled from the spec: the simulation engine's fixed-step explicit
Euler integration of the SEIR derivative (spec section 4.2; the source
delegates integration to scipy's `odeint`, which is outside the
repository). -/
def eulerRun (y0 : ℚ × ℚ × ℚ × ℚ) (dt : ℚ) (N beta sigma gamma : ℚ) :
    ℕ → ℚ × ℚ × ℚ × ℚ
  | 0 => y0
  | k + 1 =>
      let y := eulerRun y0 dt N beta sigma gamma k
      let d := deriv y ((k : ℚ) * dt) N beta sigma gamma
      (y.1 + dt * d.1, y.2.1 + dt * d.2.1,
       y.2.2.1 + dt * d.2.2.1, y.2.2.2 + dt * d.2.2.2)

end SEIR

namespace SIRS

/-- The SIRS model differential equations (`sirs_model.py`, lines 55-60):
`deriv(y, t, N, beta, gamma, xi)` returns
(dS/dt, dI/dt, dR/dt) = (-βSI/N + ξR, βSI/N - γI, γI - ξR). -/
def deriv (y : ℚ × ℚ × ℚ) (t : ℚ) (N beta gamma xi : ℚ) : ℚ × ℚ × ℚ :=
  let S := y.1
  let I := y.2.1
  let R := y.2.2
  (-beta * S * I / N + xi * R, beta * S * I / N - gamma * I,
   gamma * I - xi * R)

/-- Sum of the three state components (the total population S+I+R). -/
def total (y : ℚ × ℚ × ℚ) : ℚ :=
  y.1 + y.2.1 + y.2.2

/-- Modelled from the spec: the simulation engine's fixed-step explicit
Euler integration of the SIRS derivative (spec section 4.2; the source
delegates integration to scipy's `odeint`, which is outside the
repository). -/
def eulerRun (y0 : ℚ × ℚ × ℚ) (dt : ℚ) (N beta gamma xi : ℚ) :
    ℕ → ℚ × ℚ × ℚ
  | 0 => y0
  | k + 1 =>
      let y := eulerRun y0 dt N beta gamma xi k
      let d := deriv y ((k : ℚ) * dt) N beta gamma xi
      (y.1 + dt * d.1, y.2.1 + dt * d.2.1, y.2.2 + dt * d.2.2)

end SIRS

/-- C3: the four components of the SEIR derivative sum to zero for every
state and time, the three components of the SIRS derivative sum to zero,
and hence the total population S+E+I+R (resp. S+I+R) is conserved at every
grid point of a (fixed-step Euler) run. -/
theorem seir_sirs_conservation :
    (∀ y t N beta sigma gamma, SEIR.total (SEIR.deriv y t N beta sigma gamma) = 0) ∧
    (∀ y t N beta gamma xi, SIRS.total (SIRS.deriv y t N beta gamma xi) = 0) ∧
    (∀ y0 dt N beta sigma gamma k,
      SEIR.total (SEIR.eulerRun y0 dt N beta sigma gamma k) = SEIR.total y0) ∧
    (∀ y0 dt N beta gamma xi k,
      SIRS.total (SIRS.eulerRun y0 dt N beta gamma xi k) = SIRS.total y0) := by
  have hseir : ∀ y t N beta sigma gamma,
      SEIR.total (SEIR.deriv y t N beta sigma gamma) = 0 := by
    intro y t N beta sigma gamma
    simp only [SEIR.deriv, SEIR.total]
    ring
  have hsirs : ∀ y t N beta gamma xi,
      SIRS.total (SIRS.deriv y t N beta gamma xi) = 0 := by
    intro y t N beta gamma xi
    simp only [SIRS.deriv, SIRS.total]
    ring
  refine ⟨hseir, hsirs, ?_, ?_⟩
  · intro y0 dt N beta sigma gamma k
    induction k with
    | zero => rfl
    | succ n ih =>
        have h := hseir (SEIR.eulerRun y0 dt N beta sigma gamma n)
          ((n : ℚ) * dt) N beta sigma gamma
        simp only [SEIR.eulerRun, SEIR.total] at *
        linear_combination ih + dt * h
  · intro y0 dt N beta gamma xi k
    induction k with
    | zero => rfl
    | succ n ih =>
        have h := hsirs (SIRS.eulerRun y0 dt N beta gamma xi n)
          ((n : ℚ) * dt) N beta gamma xi
        simp only [SIRS.eulerRun, SIRS.total] at *
        linear_combination ih + dt * h

namespace Engine

/-- Modelled from the spec: the error kinds of the simulation engine
(spec section 7; the repository's scripts contain no engine component,
only hard-coded loops). -/
inductive Err where
  | InvalidParameter
  | InvalidTimeRange
  | NumericalDivergence
  | MissingRandomSource
deriving DecidableEq

/-- A list of time points is strictly increasing. -/
def strictIncr : List ℚ → Bool
  | [] => true
  | [_] => true
  | a :: b :: rest => (a < b : Bool) && strictIncr (b :: rest)

/-- The grid is nonempty and starts no earlier than the model's origin t0. -/
def startsAtOrigin (t0 : ℚ) : List ℚ → Bool
  | [] => false
  | t :: _ => (t0 ≤ t : Bool)

/-- Iterate a discrete update over the grid, carrying state forward. -/
def stepAll {σ : Type} (g : σ → ℚ → σ) (s : σ) : List ℚ → List σ
  | [] => []
  | t :: rest => let s2 := g s t; s2 :: stepAll g s2 rest

/-- Modelled from the spec: `run(model, initial_state, time_grid)`
(spec section 4.2) — validates the grid before any stepping, rejecting a
non-strictly-increasing grid or one starting before the origin with
`InvalidTimeRange`, and otherwise iterates the update over the grid. -/
def run {σ : Type} (g : σ → ℚ → σ) (init : σ) (t0 : ℚ) (grid : List ℚ) :
    Except Err (List σ) :=
  if strictIncr grid && startsAtOrigin t0 grid then
    Except.ok (stepAll g init grid)
  else
    Except.error Err.InvalidTimeRange

end Engine

/-- C7: a time grid that is not strictly increasing, or that starts before
the model's origin, makes `run` fail with InvalidTimeRange for every model
update function and initial state: no partial trajectory is produced. -/
theorem engine_rejects_invalid_time_range {σ : Type}
    (g : σ → ℚ → σ) (init : σ) (t0 : ℚ) (grid : List ℚ)
    (h : Engine.strictIncr grid = false ∨ Engine.startsAtOrigin t0 grid = false) :
    Engine.run g init t0 grid = Except.error Engine.Err.InvalidTimeRange := by
  unfold Engine.run
  rcases h with h | h <;> simp [h]

/-- C7 witness: the grid [0, 5, 3] of the spec's example is not strictly
increasing and is rejected. -/
theorem engine_rejects_invalid_time_range_witness :
    Engine.strictIncr [(0 : ℚ), 5, 3] = false ∧
    Engine.run (fun s _ => s) (0 : ℚ) 0 [(0 : ℚ), 5, 3] =
      Except.error Engine.Err.InvalidTimeRange := by
  have h : Engine.strictIncr [(0 : ℚ), 5, 3] = false := by decide
  exact ⟨h, engine_rejects_invalid_time_range (fun s _ => s) 0 0
    [(0 : ℚ), 5, 3] (Or.inl h)⟩

namespace GBM

/-- A linear congruential step (Numerical Recipes constants), modulo 2^32. -/
def lcgNext (x : ℕ) : ℕ := (1664525 * x + 1013904223) % 2 ^ 32

/-- Iterated LCG state: i+1 applications of `lcgNext` to the seed. -/
def lcgIter (seed : ℕ) : ℕ → ℕ
  | 0 => lcgNext seed
  | i + 1 => lcgNext (lcgIter seed i)

/-- Modelled from the spec: the seeded pseudo-random source
(`stock_market_fluctuation.py` lines 44-45 call `np.random.seed(42)` and
`np.random.normal`; numpy's generator is outside the repository, and the
spec only requires a deterministic function of the seed).  A centred draw
in [-1/2, 1/2) from the LCG stream. -/
def seededDraw (seed i : ℕ) : ℚ := (lcgIter seed i : ℚ) / 2 ^ 32 - 1 / 2

/-- Modelled from the spec: Brownian increments dW with standard deviation
sqrt(dt), one per step, drawn from the seeded source. -/
noncomputable def dW (seed : ℕ) (dt : ℝ) (i : ℕ) : ℝ :=
  (seededDraw seed i : ℝ) * Real.sqrt dt

/-- The simulated GBM path (`stock_market_fluctuation.py`, lines 48-53):
`S[0] = S0`, then `S[i] = S[i-1] * exp((mu - 0.5*sigma**2)*dt +
sigma*dW[i-1])`, for an arbitrary increment stream w. -/
noncomputable def S (S0 mu sigma dt : ℝ) (w : ℕ → ℝ) : ℕ → ℝ
  | 0 => S0
  | i + 1 => S S0 mu sigma dt w i *
      Real.exp ((mu - 0.5 * sigma ^ 2) * dt + sigma * w i)

/-- The trajectory of a full seeded run of length N: the price path with
increments generated deterministically from the seed. -/
noncomputable def trajectory (seed : ℕ) (S0 mu sigma dt : ℝ) (N : ℕ) :
    List ℝ :=
  (List.range N).map (S S0 mu sigma dt (dW seed dt))

/-- A constant-zero increment stream, used to instantiate generic results. -/
def zeroNoise : ℕ → ℝ := fun _ => 0

end GBM

/-- C5: the GBM trajectory is a deterministic function of the seed and the
parameters alone: two runs with equal seeds and identical parameters
(S0, mu, sigma, dt, N) produce identical price trajectories. -/
theorem gbm_deterministic_replay (seed seed' : ℕ)
    (S0 mu sigma dt S0' mu' sigma' dt' : ℝ) (N N' : ℕ)
    (hseed : seed = seed') (hS0 : S0 = S0') (hmu : mu = mu')
    (hsigma : sigma = sigma') (hdt : dt = dt') (hN : N = N') :
    GBM.trajectory seed S0 mu sigma dt N =
      GBM.trajectory seed' S0' mu' sigma' dt' N' := by
  subst hseed hS0 hmu hsigma hdt hN
  rfl

/-- C5 witness: replay at the script's values seed 42, S0 = 100,
mu = 0.05, sigma = 0.2, dt = 1/252, N = 252. -/
theorem gbm_deterministic_replay_witness :
    GBM.trajectory 42 100 (5 / 100) (2 / 10) (1 / 252) 252 =
      GBM.trajectory 42 100 (5 / 100) (2 / 10) (1 / 252) 252 :=
  gbm_deterministic_replay 42 42 100 (5 / 100) (2 / 10) (1 / 252)
    100 (5 / 100) (2 / 10) (1 / 252) 252 252 rfl rfl rfl rfl rfl rfl

/-- C6: for every positive initial price S0 and arbitrary (finite) real
mu, sigma, dt and increment stream w, every simulated GBM price S[i] is
strictly positive. -/
theorem gbm_price_positive (S0 mu sigma dt : ℝ) (w : ℕ → ℝ)
    (h : 0 < S0) (i : ℕ) : 0 < GBM.S S0 mu sigma dt w i := by
  induction i with
  | zero => exact h
  | succ n ih => exact mul_pos ih (Real.exp_pos _)

/-- C6 witness: positivity at S0 = 100 with the script's drift and
volatility and zero noise, index 3. -/
theorem gbm_price_positive_witness :
    0 < GBM.S 100 (5 / 100) (2 / 10) (1 / 252) GBM.zeroNoise 3 :=
  gbm_price_positive 100 (5 / 100) (2 / 10) (1 / 252) GBM.zeroNoise
    (by norm_num) 3

/-- C10: the iterative GBM recurrence equals the closed-form solution: for
every index i, S[i] = S0 * exp((mu - 0.5*sigma^2)*i*dt + sigma*W_i) where
W_i is the sum of the first i Brownian increments. -/
theorem gbm_closed_form (S0 mu sigma dt : ℝ) (w : ℕ → ℝ) (i : ℕ) :
    GBM.S S0 mu sigma dt w i =
      S0 * Real.exp ((mu - 0.5 * sigma ^ 2) * i * dt +
        sigma * ∑ j ∈ Finset.range i, w j) := by
  induction i with
  | zero => simp [GBM.S]
  | succ n ih =>
      show GBM.S S0 mu sigma dt w n *
          Real.exp ((mu - 0.5 * sigma ^ 2) * dt + sigma * w n) = _
      rw [ih, mul_assoc, ← Real.exp_add]
      congr 2
      rw [Finset.sum_range_succ]
      push_cast
      ring

namespace RC

/-- The RC time constant (`Battery_discharge_model.py`, line 184):
`tau = R * C`. -/
def tau (R C : ℝ) : ℝ := R * C

/-- The analytical charging solution (line 200):
`V_charge_analytical = V0 * (1 - np.exp(-t / tau))`. -/
noncomputable def V_charge_analytical (R C V0 t : ℝ) : ℝ :=
  V0 * (1 - Real.exp (-t / tau R C))

/-- The analytical discharging solution (line 222):
`V_discharge_analytical = V0 * np.exp(-t / tau)`. -/
noncomputable def V_discharge_analytical (R C V0 t : ℝ) : ℝ :=
  V0 * Real.exp (-t / tau R C)

end RC

/-- C8: for R > 0, C > 0, V0 > 0, at t = τ = R·C the charging ratio
V_C / V0 = 1 - e⁻¹ is within 1% of 0.632 and the discharging ratio
V_C / V0 = e⁻¹ is within 1% of 0.368. -/
theorem rc_time_constant_ratios (R C V0 : ℝ)
    (hR : 0 < R) (hC : 0 < C) (hV : 0 < V0) :
    |RC.V_charge_analytical R C V0 (RC.tau R C) / V0 - 0.632| ≤
      0.01 * 0.632 ∧
    |RC.V_discharge_analytical R C V0 (RC.tau R C) / V0 - 0.368| ≤
      0.01 * 0.368 := by
  have htau : RC.tau R C ≠ 0 := by
    simp only [RC.tau]
    positivity
  have hV0 : V0 ≠ 0 := ne_of_gt hV
  have harg : -(RC.tau R C) / RC.tau R C = -1 := by
    field_simp
  have hlo := Real.exp_neg_one_gt_d9
  have hhi := Real.exp_neg_one_lt_d9
  constructor
  · have hq : RC.V_charge_analytical R C V0 (RC.tau R C) / V0 =
        1 - Real.exp (-1) := by
      unfold RC.V_charge_analytical
      rw [harg, mul_comm, mul_div_assoc, div_self hV0, mul_one]
    rw [hq, abs_le]
    constructor <;> nlinarith [hlo, hhi]
  · have hq : RC.V_discharge_analytical R C V0 (RC.tau R C) / V0 =
        Real.exp (-1) := by
      unfold RC.V_discharge_analytical
      rw [harg, mul_comm, mul_div_assoc, div_self hV0, mul_one]
    rw [hq, abs_le]
    constructor <;> nlinarith [hlo, hhi]

/-- C8 witness: the ratios at the script's values R = 1000 Ω,
C = 0.001 F, V0 = 5 V. -/
theorem rc_time_constant_ratios_witness :
    |RC.V_charge_analytical 1000 (1 / 1000) 5 (RC.tau 1000 (1 / 1000)) / 5 -
      0.632| ≤ 0.01 * 0.632 ∧
    |RC.V_discharge_analytical 1000 (1 / 1000) 5 (RC.tau 1000 (1 / 1000)) / 5 -
      0.368| ≤ 0.01 * 0.368 :=
  rc_time_constant_ratios 1000 (1 / 1000) 5 (by norm_num) (by norm_num)
    (by norm_num)
